import Mathlib

/-!
Verification of the incremental event-scanning engine of liquidity-datum
(src/scripts/scanTroves.js and src/scripts/scanStabilityPool.js).

Blocks are modelled as `Int` (JavaScript numbers used in integer range),
strings as `List Char`, the SQLite event table as a list of rows inserted
with an ON CONFLICT DO NOTHING policy, and the RPC provider as explicit
functions supplied by the environment.
-/

namespace Datum

/-! ## String helpers shared by the error classifier -/

/-- ASCII lowercase of a character list, modelling String.prototype.toLowerCase
on the ASCII error messages the scanner inspects. -/
def lowerList (cs : List Char) : List Char := cs.map Char.toLower

/-- Value of a list of decimal digit characters, most significant first. -/
def digitsVal (ds : List Char) : Nat :=
  ds.foldl (fun n c => n * 10 + (c.toNat - 48)) 0

/-- Strips `pat` from the front of `cs`, returning the remainder on success. -/
def dropPat : List Char → List Char → Option (List Char)
  | [], cs => some cs
  | _ :: _, [] => none
  | p :: ps, c :: cs => if c = p then dropPat ps cs else none

/-- Whether `pat` occurs as a contiguous run anywhere in the list; this is the
semantics of String.prototype.includes used by isRateLimitError. -/
def containsPat (pat : List Char) : List Char → Bool
  | [] => (dropPat pat []).isSome
  | c :: cs => (dropPat pat (c :: cs)).isSome || containsPat pat cs

/-! ## Error classification (scanTroves.js lines 41-52) -/

/-- A provider error, carrying only the message string the classifier reads. -/
structure ScanError where
  msg : List Char
deriving DecidableEq

/-- Match of the regex /retry in\s+(\d+)\s*s/i at the head of `cs`
(already lowercased), returning the captured number of seconds. -/
def retryInHere (cs : List Char) : Option Nat :=
  match dropPat (("retry in").toList) cs with
  | none => none
  | some rest =>
    let ws := rest.takeWhile Char.isWhitespace
    let rest1 := rest.dropWhile Char.isWhitespace
    if ws.isEmpty then none
    else
      let ds := rest1.takeWhile Char.isDigit
      let rest2 := rest1.dropWhile Char.isDigit
      if ds.isEmpty then none
      else
        match rest2.dropWhile Char.isWhitespace with
        | 's' :: _ => some (digitsVal ds)
        | _ => none

/-- First match of the retry-in regex anywhere in the message. -/
def findRetryIn : List Char → Option Nat
  | [] => none
  | c :: cs =>
    match retryInHere (c :: cs) with
    | some n => some n
    | none => findRetryIn cs

/-- parseRetryAfterMs: extracts a machine-readable "retry in N s" hint from an
error message and converts it to milliseconds; null when absent or zero. -/
def parseRetryAfterMs (e : ScanError) : Option Nat :=
  match findRetryIn (lowerList e.msg) with
  | none => none
  | some sec => if 0 < sec then some (sec * 1000) else none

/-- isRateLimitError: the message, lowercased, mentions "rate limit",
"too many requests", or the provider throttling code -32090. -/
def isRateLimitError (e : ScanError) : Bool :=
  let m := lowerList e.msg
  containsPat (("rate limit").toList) m ||
    containsPat (("too many requests").toList) m ||
    containsPat (("-32090").toList) m

/-! ## Raw logs and the retry loop (scanTroves.js lines 54-71) -/

/-- A JavaScript numeric value as the scanner distinguishes it: an integer
(Number.isInteger true) or any non-integer number. -/
inductive JSNum
  | int (i : Int)
  | nonint
deriving DecidableEq

/-- A dynamically typed index field of a raw log: a number, a string,
or absent. -/
inductive JSIndex
  | num (n : JSNum)
  | str (s : List Char)
  | undef
deriving DecidableEq

/-- A raw log as delivered by provider.getLogs, restricted to the fields the
scanner reads. -/
structure RawLog where
  index : JSIndex
  logIndex : JSIndex
  topics : Option (List (List Char))
  transactionHash : Option (List Char)
  blockNumber : JSNum
deriving DecidableEq

/-- Outcome of one provider.getLogs call. -/
inductive CallOutcome
  | ok (logs : List RawLog)
  | err (e : ScanError)
deriving DecidableEq

/-- Result of getLogsWithRetry together with the observable retry behaviour:
how many attempts were made and which sleep durations were awaited. -/
structure FetchTrace where
  ok : Bool
  attemptsMade : Nat
  sleeps : List Nat
  logs : List RawLog
deriving DecidableEq

/-- Loop body of getLogsWithRetry. `calls i` is the outcome of the (i+1)-th
provider call; `attempt` counts calls already made and `backoffMs` is the
current computed backoff. `fuel` only bounds the recursion and is chosen
`≥ maxAttempts - attempt` by the wrapper, making the fuel-out branch
unreachable. -/
def retryLoop (calls : Nat → CallOutcome) (maxAttempts : Nat) :
    Nat → Nat → Nat → FetchTrace
  | 0, attempt, _ => ⟨false, attempt, [], []⟩
  | fuel + 1, attempt, backoffMs =>
    if attempt < maxAttempts then
      match calls attempt with
      | .ok logs => ⟨true, attempt + 1, [], logs⟩
      | .err e =>
        let retryAfter := parseRetryAfterMs e
        let shouldRetry := isRateLimitError e || retryAfter.isSome
        if shouldRetry = false ∨ maxAttempts ≤ attempt + 1 then
          ⟨false, attempt + 1, [], []⟩
        else
          let t := retryLoop calls maxAttempts fuel (attempt + 1)
            (min (backoffMs * 2) 10000)
          ⟨t.ok, t.attemptsMade, retryAfter.getD backoffMs :: t.sleeps, t.logs⟩
    else ⟨false, attempt, [], []⟩

/-- getLogsWithRetry: up to maxAttempts provider calls (the source default is
maxAttempts = 6), starting from attempt 0 with a 750 ms backoff. -/
def getLogsWithRetry (calls : Nat → CallOutcome) (maxAttempts : Nat) : FetchTrace :=
  retryLoop calls maxAttempts maxAttempts 0 750

/-! ## Resume start and window scheduling (scanTroves.js lines 182, 203-204) -/

/-- Effective start block of a run:
fromBlock = lastScanned > 0 ? max(startBlock, lastScanned - OVERLAP_BLOCKS)
: startBlock. -/
def effectiveStart (startBlock lastScanned overlap : Int) : Int :=
  if 0 < lastScanned then max startBlock (lastScanned - overlap) else startBlock

/-- The windows produced by the scan loop: for b = fromBlock; b ≤ latestBlock;
b += scanBlocks + 1, the window (b, min (b + scanBlocks) latestBlock). -/
def windows (fromBlock latestBlock : Int) (scanBlocks : Nat) : List (Int × Int) :=
  if h : latestBlock < fromBlock then []
  else
    (fromBlock, min (fromBlock + scanBlocks) latestBlock) ::
      windows (fromBlock + scanBlocks + 1) latestBlock scanBlocks
termination_by (latestBlock + 1 - fromBlock).toNat
decreasing_by omega

theorem windows_nil (f l : Int) (s : Nat) (h : l < f) : windows f l s = [] := by
  rw [windows, dif_pos h]

theorem windows_cons (f l : Int) (s : Nat) (h : f ≤ l) :
    windows f l s = (f, min (f + s) l) :: windows (f + s + 1) l s := by
  rw [windows, dif_neg (by omega)]

/-- Exact tiling of the integer interval [f, l] by a list of windows:
the first window starts at f, each next starts right after the previous
ends, and the last ends at l. -/
def tiles : Int → Int → List (Int × Int) → Prop
  | f, l, [] => f = l + 1
  | f, l, (a, b) :: rest => a = f ∧ a ≤ b ∧ b ≤ l ∧ tiles (b + 1) l rest

theorem tiles_windows (s : Nat) (f l : Int) (h : f ≤ l) :
    tiles f l (windows f l s) := by
  have H : ∀ n : Nat, ∀ f l : Int, (l - f).toNat = n → f ≤ l →
      tiles f l (windows f l s) := by
    intro n
    induction n using Nat.strong_induction_on with
    | _ n ih =>
      intro f l hn hfl
      rw [windows_cons _ _ _ hfl]
      by_cases hnext : f + (s : Int) + 1 ≤ l
      · have hmin : min (f + (s : Int)) l = f + s := by omega
        rw [hmin]
        exact ⟨rfl, by omega, by omega,
          ih ((l - (f + s + 1)).toNat) (by omega) _ _ rfl hnext⟩
      · have hmin : min (f + (s : Int)) l = l := by omega
        rw [hmin]
        refine ⟨rfl, hfl, le_refl l, ?_⟩
        rw [windows_nil _ _ _ (by omega)]
        show (l + 1 : Int) = l + 1
        rfl
  exact H _ f l rfl h

/-- Every window of a tiling lies inside [f, l] and is well-formed. -/
theorem tiles_bounds : ∀ (ws : List (Int × Int)) (f l : Int), tiles f l ws →
    ∀ w ∈ ws, f ≤ w.1 ∧ w.1 ≤ w.2 ∧ w.2 ≤ l := by
  intro ws
  induction ws with
  | nil => intro f l _ w hw; simp at hw
  | cons a rest ih =>
    obtain ⟨a1, a2⟩ := a
    intro f l ht w hw
    obtain ⟨rfl, hab, hbl, hrest⟩ := ht
    rcases List.mem_cons.mp hw with rfl | hw'
    · exact ⟨le_refl _, hab, hbl⟩
    · have h2 := ih (a2 + 1) l hrest w hw'
      exact ⟨by omega, h2.2.1, h2.2.2⟩

/-- A point is covered by some window of the list. -/
def covers (ws : List (Int × Int)) (x : Int) : Prop :=
  ∃ w ∈ ws, w.1 ≤ x ∧ x ≤ w.2

theorem tiles_covers : ∀ (ws : List (Int × Int)) (f l : Int), tiles f l ws →
    ∀ x : Int, covers ws x ↔ (f ≤ x ∧ x ≤ l) := by
  intro ws
  induction ws with
  | nil =>
    intro f l ht x
    simp only [covers, List.not_mem_nil, false_and, exists_false, exists_const]
    have : f = l + 1 := ht
    constructor
    · intro h; exact absurd h (by simp)
    · intro h; omega
  | cons a rest ih =>
    obtain ⟨a1, a2⟩ := a
    intro f l ht x
    obtain ⟨rfl, hab, hbl, hrest⟩ := ht
    have hr := ih (a2 + 1) l hrest x
    simp only [covers] at hr
    simp only [covers, List.exists_mem_cons_iff]
    rw [hr]
    omega

theorem tiles_pairwise : ∀ (ws : List (Int × Int)) (f l : Int), tiles f l ws →
    List.Pairwise (fun w w' : Int × Int => w.2 < w'.1) ws := by
  intro ws
  induction ws with
  | nil => intro f l _; exact List.Pairwise.nil
  | cons a rest ih =>
    obtain ⟨a1, a2⟩ := a
    intro f l ht
    obtain ⟨rfl, hab, hbl, hrest⟩ := ht
    refine List.Pairwise.cons ?_ (ih _ _ hrest)
    intro w hw
    have h2 := tiles_bounds rest (a2 + 1) l hrest w hw
    show a2 < w.1
    omega

theorem tiles_map_snd_getLastD : ∀ (ws : List (Int × Int)) (f l d : Int),
    tiles f l ws → ws ≠ [] → (ws.map Prod.snd).getLastD d = l := by
  intro ws
  induction ws with
  | nil => intro f l d _ hne; exact absurd rfl hne
  | cons a rest ih =>
    obtain ⟨a1, a2⟩ := a
    intro f l d ht _
    obtain ⟨rfl, hab, hbl, hrest⟩ := ht
    rw [List.map_cons, List.getLastD_cons]
    cases rest with
    | nil =>
      have : (a2 + 1 : Int) = l + 1 := hrest
      simp only [List.map_nil, List.getLastD_nil]
      omega
    | cons b rest' => exact ih (a2 + 1) l a2 hrest (by simp)

theorem windows_ne_nil (f l : Int) (s : Nat) (h : f ≤ l) : windows f l s ≠ [] := by
  rw [windows_cons _ _ _ h]; simp

/-! ## Stable log index (scanTroves.js lines 81-90) -/

/-- Whether a digit character is a valid hexadecimal digit. -/
def isHexDigit (c : Char) : Bool :=
  c.isDigit || (97 ≤ c.toNat && c.toNat ≤ 102) || (65 ≤ c.toNat && c.toNat ≤ 70)

/-- Numeric value of a hexadecimal digit character. -/
def hexDigitVal (c : Char) : Nat :=
  if c.isDigit then c.toNat - 48
  else if 97 ≤ c.toNat then c.toNat - 87
  else c.toNat - 55

/-- Value of a list of hexadecimal digit characters, most significant first. -/
def hexVal (ds : List Char) : Nat :=
  ds.foldl (fun n c => n * 16 + hexDigitVal c) 0

/-- Number.parseInt(s, radix) for radix 16 (`hex = true`) or 10: skip leading
whitespace, read an optional sign, for radix 16 drop an optional 0x/0X prefix,
then take the longest run of digits; NaN (none) when that run is empty. -/
def parseIntJS (hex : Bool) (s : List Char) : Option Int :=
  let s1 := s.dropWhile Char.isWhitespace
  let sign : Int := match s1 with
    | '-' :: _ => -1
    | _ => 1
  let s2 : List Char := match s1 with
    | '-' :: rest => rest
    | '+' :: rest => rest
    | _ => s1
  let s3 : List Char :=
    if hex then
      match s2 with
      | '0' :: 'x' :: rest => rest
      | '0' :: 'X' :: rest => rest
      | _ => s2
    else s2
  let ds := s3.takeWhile (fun c => if hex then isHexDigit c else c.isDigit)
  if ds.isEmpty then none
  else some (sign * (if hex then (hexVal ds : Int) else (digitsVal ds : Int)))

/-- Whether a string starts with "0x" (String.prototype.startsWith). -/
def isHexPrefixed : List Char → Bool
  | '0' :: 'x' :: _ => true
  | _ => false

/-- Fallback of getStableLogIndex: the lg.logIndex field, accepted when it is
a non-negative integer number, or parsed with parseInt (base 16 when
0x-prefixed, else base 10) when it is a string. -/
def stableFromLogIndex (lg : RawLog) : Option Int :=
  match lg.logIndex with
  | .num (.int i) => if 0 ≤ i then some i else none
  | .num .nonint => none
  | .str li =>
    (match parseIntJS (isHexPrefixed li) li with
     | some n => if 0 ≤ n then some n else none
     | none => none)
  | .undef => none

/-- getStableLogIndex: lg.index when it is a non-negative integer, else the
lg.logIndex fallback, else null. -/
def getStableLogIndex (lg : RawLog) : Option Int :=
  match lg.index with
  | .num (.int i) => if 0 ≤ i then some i else stableFromLogIndex lg
  | _ => stableFromLogIndex lg

/-! ## Timestamp resolution (scanTroves.js lines 96-117) -/

/-- A block as returned by provider.getBlock, restricted to the field read. -/
structure SimpleBlock where
  timestamp : JSNum
deriving DecidableEq

/-- The distinct integer block numbers referenced by a batch of logs, in order
of first occurrence (the uniqueBlocks/seen loop). -/
def uniqueBlocks (logs : List RawLog) : List Int :=
  logs.foldl
    (fun acc lg =>
      match lg.blockNumber with
      | .int bn => if acc.contains bn then acc else acc ++ [bn]
      | .nonint => acc)
    []

/-- resolveBlockTimestamps: looks up each distinct block number and keeps the
pairs whose lookup returned a block with an integer timestamp. `getBlock` is
the provider; null results and non-integer timestamps are skipped. -/
def resolveBlockTimestamps (getBlock : Int → Option SimpleBlock)
    (logs : List RawLog) : List (Int × Int) :=
  (uniqueBlocks logs).filterMap fun bn =>
    match getBlock bn with
    | some blk =>
      (match blk.timestamp with
       | .int t => some (bn, t)
       | .nonint => none)
    | none => none

/-! ## Transfer decoding (scanTroves.js lines 31-35, 73-94, 219-241) -/

/-- Map lookup blockTsMap.get(lg.blockNumber): undefined (none) when the block
number is not an integer or is absent from the map. -/
def tsLookup (m : List (Int × Int)) : JSNum → Option Int
  | .int i => List.lookup i m
  | .nonint => none

/-- addressFromTopic: "0x" + t.slice(26). The source additionally checksums
the address with ethers.getAddress; the decoder lowercases the result
immediately, so the checksum casing is dropped here. -/
def addressFromTopic (t : List Char) : List Char :=
  '0' :: 'x' :: t.drop 26

/-- tokenIdFromTopic: BigInt(t).toString(). Topics delivered by the provider
are 0x-prefixed hex strings; the value is their hex value. (Invalid input,
which would throw in the source, is mapped to the value of its longest valid
digit run.) -/
def tokenIdFromTopic (t : List Char) : Int :=
  match t with
  | '0' :: 'x' :: rest => (hexVal (rest.takeWhile isHexDigit) : Int)
  | _ => (digitsVal (t.takeWhile Char.isDigit) : Int)

/-- BURN_ADDRS: the zero and dead addresses, lowercased. -/
def burnAddrs : List (List Char) :=
  [("0x0000000000000000000000000000000000000000").toList,
   ("0x000000000000000000000000000000000000dead").toList]

/-- isBurn: membership of the lowercased recipient in BURN_ADDRS. -/
def isBurn (addrLower : List Char) : Bool := burnAddrs.contains addrLower

/-- A decoded transfer event, one entry of the per-window `events` array. -/
structure TransferEvent where
  blockNumber : JSNum
  blockTimestamp : Option Int
  txHash : List Char
  logIndex : Int
  fromLower : List Char
  toLower : List Char
  tokenId : Int
  isBurned : Bool
deriving DecidableEq

/-- A truthiness filter for the transactionHash field: undefined and the
empty string are falsy. -/
def truthyStr : Option (List Char) → Option (List Char)
  | some (c :: cs) => some (c :: cs)
  | _ => none

/-- Decoding of one raw transfer log (the loop body at lines 219-241): drop
the log when its topics array is missing or shorter than 4 entries, when no
stable log index can be determined, or when it has no transaction hash;
otherwise build the decoded event, with a null timestamp when the block is
absent from the timestamp map. -/
def decodeTransferLog (tsMap : List (Int × Int)) (lg : RawLog) :
    Option TransferEvent :=
  match lg.topics with
  | none => none
  | some topics =>
    if topics.length < 4 then none
    else
      match getStableLogIndex lg with
      | none => none
      | some li =>
        match truthyStr lg.transactionHash with
        | none => none
        | some txHash =>
          let fromLower := lowerList (addressFromTopic (topics.getD 1 []))
          let toLower := lowerList (addressFromTopic (topics.getD 2 []))
          some
            { blockNumber := lg.blockNumber
              blockTimestamp := tsLookup tsMap lg.blockNumber
              txHash := txHash
              logIndex := li
              fromLower := fromLower
              toLower := toLower
              tokenId := tokenIdFromTopic (topics.getD 3 [])
              isBurned := isBurn toLower }

/-- Decoding of a whole window's batch: malformed logs are dropped
individually, the rest decode. -/
def decodeTransferLogs (tsMap : List (Int × Int)) (logs : List RawLog) :
    List TransferEvent :=
  logs.filterMap (decodeTransferLog tsMap)

/-! ## Persistence (scanTroves.js lines 196-201, 243-260) -/

/-- A row of the loan_nft_transfers table. -/
structure TransferRow where
  contractKey : List Char
  blockNumber : JSNum
  blockTimestamp : Option Int
  txHash : List Char
  logIndex : Int
  fromAddr : List Char
  toAddr : List Char
  tokenId : Int
  isBurned : Nat
deriving DecidableEq

/-- The uniqueness key of the table: UNIQUE (contract_key, tx_hash,
log_index). -/
def rowKey (r : TransferRow) : List Char × List Char × Int :=
  (r.contractKey, r.txHash, r.logIndex)

/-- Boolean key comparison used by the conflict check. -/
def keyMatches (k : List Char × List Char × Int) (r : TransferRow) : Bool :=
  decide (rowKey r = k)

/-- Number of rows carrying a given uniqueness key. -/
def keyCount (tbl : List TransferRow) (k : List Char × List Char × Int) : Nat :=
  tbl.countP (keyMatches k)

/-- INSERT ... ON CONFLICT(contract_key, tx_hash, log_index) DO NOTHING:
when a row with the same key exists the insert is a no-op, otherwise the row
is appended. -/
def insertTransfer (tbl : List TransferRow) (r : TransferRow) : List TransferRow :=
  if tbl.any (keyMatches (rowKey r)) then tbl else tbl ++ [r]

/-- The row built from a decoded event by insertTransfer.run(contract.key,
e.blockNumber, ...). -/
def rowOfEvent (key : List Char) (e : TransferEvent) : TransferRow :=
  { contractKey := key
    blockNumber := e.blockNumber
    blockTimestamp := e.blockTimestamp
    txHash := e.txHash
    logIndex := e.logIndex
    fromAddr := e.fromLower
    toAddr := e.toLower
    tokenId := e.tokenId
    isBurned := if e.isBurned then 1 else 0 }

/-- The per-window transaction: insert every decoded event of the batch in
order. -/
def commitBatch (key : List Char) (tbl : List TransferRow)
    (evs : List TransferEvent) : List TransferRow :=
  evs.foldl (fun t e => insertTransfer t (rowOfEvent key e)) tbl

/-! ## The per-run window loop (scanTroves.js lines 173-273) -/

/-- Result of one window's fetch+decode, as seen by the window loop: either
retry exhaustion of getLogsWithRetry, or a successfully fetched window whose
batch decoded to `events`. -/
inductive WindowFetch
  | fail
  | ok (events : List TransferEvent)
deriving DecidableEq

/-- Whether the window's fetch succeeded. -/
def WindowFetch.isOk : WindowFetch → Bool
  | .fail => false
  | .ok _ => true

/-- The decoded events of the window (empty for a failed fetch). -/
def WindowFetch.events : WindowFetch → List TransferEvent
  | .fail => []
  | .ok evs => evs

/-- Mutable state of the window loop: the lastGoodBlock marker, the event
table, the number of database transactions executed so far, and the number of
windows whose fetch was attempted. -/
structure RunState where
  lastGood : Int
  table : List TransferRow
  txCount : Nat
  attempted : Nat
deriving DecidableEq

/-- The window loop: process windows in order; a failed fetch breaks out of
the loop; a successful window commits its batch in one transaction when the
batch is non-empty and always advances lastGoodBlock to the window's
toBlock. -/
def windowLoop (key : List Char) (outcome : Nat → WindowFetch) :
    List (Int × Int) → RunState → RunState
  | [], st => st
  | w :: rest, st =>
    match outcome st.attempted with
    | .fail => { st with attempted := st.attempted + 1 }
    | .ok evs =>
      windowLoop key outcome rest
        { lastGood := w.2
          table := if evs.isEmpty then st.table else commitBatch key st.table evs
          txCount := st.txCount + (if evs.isEmpty then 0 else 1)
          attempted := st.attempted + 1 }

/-- Observable outcome of one run of a scan target: the stored cursor value
after the run, whether updateCursor executed, and the final loop state. -/
structure RunOutcome where
  cursor : Int
  cursorUpdated : Bool
  table : List TransferRow
  txCount : Nat
  attempted : Nat
deriving DecidableEq

/-- One run of scanLoanNftTransfers against cursor (startBlock, lastScanned):
compute the effective start, return untouched when it is past the head,
otherwise drive the window loop and advance the cursor to lastGoodBlock when
at least one window was fully committed. -/
def scanRun (key : List Char) (startBlock lastScanned overlap latestBlock : Int)
    (scanBlocks : Nat) (outcome : Nat → WindowFetch) (tbl0 : List TransferRow) :
    RunOutcome :=
  let fromBlock := effectiveStart startBlock lastScanned overlap
  if latestBlock < fromBlock then ⟨lastScanned, false, tbl0, 0, 0⟩
  else
    let st := windowLoop key outcome (windows fromBlock latestBlock scanBlocks)
      ⟨fromBlock - 1, tbl0, 0, 0⟩
    if fromBlock ≤ st.lastGood then ⟨st.lastGood, true, st.table, st.txCount, st.attempted⟩
    else ⟨lastScanned, false, st.table, st.txCount, st.attempted⟩

/-! ## Claim theorems -/

/-- C2: Window scheduling tiles the scan range exactly: for fromBlock ≤
headBlock the emitted windows [b, min (b + windowSize) headBlock], with b
stepping by windowSize + 1, are contiguous and non-overlapping and their
union is exactly [fromBlock, headBlock]; for fromBlock > headBlock zero
windows are produced. -/
theorem c2_window_tiling (fromBlock headBlock : Int) (windowSize : Nat) :
    (fromBlock ≤ headBlock →
      (∀ x : Int, covers (windows fromBlock headBlock windowSize) x ↔
          (fromBlock ≤ x ∧ x ≤ headBlock)) ∧
      List.Pairwise (fun w w' : Int × Int => w.2 < w'.1)
        (windows fromBlock headBlock windowSize) ∧
      tiles fromBlock headBlock (windows fromBlock headBlock windowSize)) ∧
    (headBlock < fromBlock → windows fromBlock headBlock windowSize = []) := by
  constructor
  · intro h
    have ht := tiles_windows windowSize fromBlock headBlock h
    exact ⟨tiles_covers _ _ _ ht, tiles_pairwise _ _ _ ht, ht⟩
  · intro h
    exact windows_nil _ _ _ h

/-- Witness for C2 at fromBlock = 2, headBlock = 10, windowSize = 3, and at
the empty case fromBlock = 11 > headBlock = 10. -/
theorem c2_window_tiling_witness :
    covers (windows 2 10 3) 7 ∧ windows 11 10 3 = [] := by
  constructor
  · exact (((c2_window_tiling 2 10 3).1 (by decide)).1 7).mpr (by decide)
  · exact (c2_window_tiling 11 10 3).2 (by decide)

/-- C3: The resume start is max(start_block, last_scanned_block - overlap)
when last_scanned_block > 0 and start_block otherwise; for the cursor
last_scanned_block = 1000, overlap = 5, windowSize = 499, head block 2000
(and a start_block at or below 995) scanning starts at 995 and produces
exactly the windows [995, 1494], [1495, 1994], [1995, 2000]. -/
theorem c3_resume_start (startBlock : Int) (h : startBlock ≤ 995) :
    (∀ sb ls ov : Int,
      (0 < ls → effectiveStart sb ls ov = max sb (ls - ov)) ∧
      (¬0 < ls → effectiveStart sb ls ov = sb)) ∧
    effectiveStart startBlock 1000 5 = 995 ∧
    windows (effectiveStart startBlock 1000 5) 2000 499 =
      [(995, 1494), (1495, 1994), (1995, 2000)] := by
  have he : effectiveStart startBlock 1000 5 = 995 := by
    unfold effectiveStart
    rw [if_pos (by norm_num)]
    omega
  refine ⟨fun sb ls ov => ⟨fun hls => ?_, fun hls => ?_⟩, he, ?_⟩
  · unfold effectiveStart
    rw [if_pos hls]
  · unfold effectiveStart
    rw [if_neg hls]
  · rw [he, windows_cons _ _ _ (by norm_num), windows_cons _ _ _ (by norm_num),
      windows_cons _ _ _ (by norm_num), windows_nil _ _ _ (by norm_num)]
    norm_num

/-- Witness for C3 at start_block = 0. -/
theorem c3_resume_start_witness :
    effectiveStart 0 1000 5 = 995 ∧
    windows (effectiveStart 0 1000 5) 2000 499 =
      [(995, 1494), (1495, 1994), (1995, 2000)] :=
  ⟨(c3_resume_start 0 (by decide)).2.1, (c3_resume_start 0 (by decide)).2.2⟩

/-! ## Lemmas about the idempotent insert -/

theorem keyCount_pos_iff_any (tbl : List TransferRow)
    (k : List Char × List Char × Int) :
    0 < keyCount tbl k ↔ tbl.any (keyMatches k) = true := by
  simp [keyCount, List.countP_pos_iff, List.any_eq_true]

theorem insertTransfer_of_present (tbl : List TransferRow) (r : TransferRow)
    (h : 0 < keyCount tbl (rowKey r)) : insertTransfer tbl r = tbl := by
  unfold insertTransfer
  rw [if_pos ((keyCount_pos_iff_any tbl (rowKey r)).mp h)]

theorem keyCount_insert_self (tbl : List TransferRow) (r : TransferRow) :
    0 < keyCount (insertTransfer tbl r) (rowKey r) := by
  unfold insertTransfer
  split
  · next h => exact (keyCount_pos_iff_any _ _).mpr h
  · simp [keyCount, List.countP_append, List.countP_cons, keyMatches]

theorem keyCount_insert_mono (tbl : List TransferRow) (r : TransferRow)
    (k : List Char × List Char × Int) :
    keyCount tbl k ≤ keyCount (insertTransfer tbl r) k := by
  unfold insertTransfer
  split
  · exact le_refl _
  · simp only [keyCount, List.countP_append]
    exact Nat.le_add_right _ _

theorem keyCount_insert_le_one (tbl : List TransferRow) (r : TransferRow)
    (k : List Char × List Char × Int) (h : keyCount tbl k ≤ 1) :
    keyCount (insertTransfer tbl r) k ≤ 1 := by
  unfold insertTransfer
  split
  · exact h
  · next hany =>
    by_cases hk : rowKey r = k
    · subst hk
      have h0 : keyCount tbl (rowKey r) = 0 := by
        by_contra hpos
        exact hany ((keyCount_pos_iff_any _ _).mp (Nat.pos_of_ne_zero hpos))
      simp only [keyCount, List.countP_append] at h0 ⊢
      have h1 : List.countP (keyMatches (rowKey r)) [r] = 1 := by
        simp [List.countP_cons, keyMatches]
      omega
    · have hf : keyMatches k r = false := by
        simp only [keyMatches, decide_eq_false_iff_not]
        exact hk
      simp only [keyCount, List.countP_append] at h ⊢
      have h1 : List.countP (keyMatches k) [r] = 0 := by
        simp [List.countP_cons, hf]
      omega

theorem commitBatch_cons (key : List Char) (tbl : List TransferRow)
    (e : TransferEvent) (evs : List TransferEvent) :
    commitBatch key tbl (e :: evs) =
      commitBatch key (insertTransfer tbl (rowOfEvent key e)) evs := rfl

theorem rowKey_rowOfEvent (key : List Char) (e : TransferEvent) :
    rowKey (rowOfEvent key e) = (key, e.txHash, e.logIndex) := rfl

theorem keyCount_commitBatch_mono (key : List Char) :
    ∀ (evs : List TransferEvent) (tbl : List TransferRow)
      (k : List Char × List Char × Int),
      keyCount tbl k ≤ keyCount (commitBatch key tbl evs) k := by
  intro evs
  induction evs with
  | nil => intro tbl k; exact le_refl _
  | cons e rest ih =>
    intro tbl k
    rw [commitBatch_cons]
    exact le_trans (keyCount_insert_mono tbl (rowOfEvent key e) k) (ih _ k)

theorem keyCount_commitBatch_le_one (key : List Char) :
    ∀ (evs : List TransferEvent) (tbl : List TransferRow)
      (k : List Char × List Char × Int),
      keyCount tbl k ≤ 1 → keyCount (commitBatch key tbl evs) k ≤ 1 := by
  intro evs
  induction evs with
  | nil => intro tbl k h; exact h
  | cons e rest ih =>
    intro tbl k h
    rw [commitBatch_cons]
    exact ih _ k (keyCount_insert_le_one tbl (rowOfEvent key e) k h)

theorem commitBatch_key_present (key : List Char) :
    ∀ (evs : List TransferEvent) (tbl : List TransferRow) (e : TransferEvent),
      e ∈ evs →
      0 < keyCount (commitBatch key tbl evs) (key, e.txHash, e.logIndex) := by
  intro evs
  induction evs with
  | nil => intro tbl e he; simp at he
  | cons e' rest ih =>
    intro tbl e he
    rw [commitBatch_cons]
    rcases List.mem_cons.mp he with rfl | he'
    · refine lt_of_lt_of_le ?_ (keyCount_commitBatch_mono key rest _ _)
      rw [← rowKey_rowOfEvent key e]
      exact keyCount_insert_self tbl (rowOfEvent key e)
    · exact ih _ e he'

theorem commitBatch_noop (key : List Char) :
    ∀ (evs : List TransferEvent) (tbl : List TransferRow),
      (∀ e ∈ evs, 0 < keyCount tbl (key, e.txHash, e.logIndex)) →
      commitBatch key tbl evs = tbl := by
  intro evs
  induction evs with
  | nil => intro tbl _; rfl
  | cons e rest ih =>
    intro tbl h
    rw [commitBatch_cons]
    have hins : insertTransfer tbl (rowOfEvent key e) = tbl := by
      apply insertTransfer_of_present
      rw [rowKey_rowOfEvent]
      exact h e (List.mem_cons_self e rest)
    rw [hins]
    exact ih tbl fun e' he' => h e' (List.mem_cons_of_mem e he')

/-- C1: Commit is idempotent on the uniqueness key (scanTargetKey, tx_hash,
log_index): an insert whose key already exists is a silent no-op leaving the
table unchanged, committing the same batch twice equals committing it once,
key multiplicity never exceeds one, and two log entries from separate fetch
calls sharing the triple leave exactly one row for that triple. -/
theorem c1_commit_idempotent :
    (∀ (tbl : List TransferRow) (r : TransferRow),
      0 < keyCount tbl (rowKey r) → insertTransfer tbl r = tbl) ∧
    (∀ (key : List Char) (tbl : List TransferRow) (evs : List TransferEvent),
      commitBatch key (commitBatch key tbl evs) evs = commitBatch key tbl evs) ∧
    (∀ (key : List Char) (tbl : List TransferRow) (evs : List TransferEvent)
      (k : List Char × List Char × Int),
      keyCount tbl k ≤ 1 → keyCount (commitBatch key tbl evs) k ≤ 1) ∧
    (∀ (key : List Char) (tbl : List TransferRow)
      (evs1 evs2 : List TransferEvent) (e1 e2 : TransferEvent),
      e1 ∈ evs1 → e2 ∈ evs2 → e1.txHash = e2.txHash →
      e1.logIndex = e2.logIndex →
      keyCount tbl (key, e1.txHash, e1.logIndex) = 0 →
      keyCount (commitBatch key (commitBatch key tbl evs1) evs2)
        (key, e1.txHash, e1.logIndex) = 1) := by
  refine ⟨insertTransfer_of_present, ?_, ?_, ?_⟩
  · intro key tbl evs
    exact commitBatch_noop key evs _ fun e he => commitBatch_key_present key evs tbl e he
  · intro key tbl evs k h
    exact keyCount_commitBatch_le_one key evs tbl k h
  · intro key tbl evs1 evs2 e1 e2 he1 he2 htx hli h0
    have hle1 : keyCount (commitBatch key tbl evs1) (key, e1.txHash, e1.logIndex) ≤ 1 :=
      keyCount_commitBatch_le_one key evs1 tbl _ (by omega)
    have hpos1 : 0 < keyCount (commitBatch key tbl evs1) (key, e1.txHash, e1.logIndex) :=
      commitBatch_key_present key evs1 tbl e1 he1
    have hle2 : keyCount (commitBatch key (commitBatch key tbl evs1) evs2)
        (key, e1.txHash, e1.logIndex) ≤ 1 :=
      keyCount_commitBatch_le_one key evs2 _ _ hle1
    have hpos2 : 0 < keyCount (commitBatch key (commitBatch key tbl evs1) evs2)
        (key, e1.txHash, e1.logIndex) :=
      lt_of_lt_of_le hpos1 (keyCount_commitBatch_mono key evs2 _ _)
    omega

/-- Witness for C1: two decoded events sharing (tx_hash, log_index),
committed from separate batches, leave exactly one row. -/
theorem c1_commit_idempotent_witness :
    keyCount
      (commitBatch (("nft").toList)
        (commitBatch (("nft").toList) []
          [{ blockNumber := JSNum.int 100, blockTimestamp := some 17,
             txHash := ("0xaa").toList, logIndex := 3,
             fromLower := ("0xf1").toList, toLower := ("0xt1").toList,
             tokenId := 7, isBurned := false }])
        [{ blockNumber := JSNum.int 100, blockTimestamp := none,
           txHash := ("0xaa").toList, logIndex := 3,
           fromLower := ("0xf2").toList, toLower := ("0xt2").toList,
           tokenId := 9, isBurned := true }])
      (("nft").toList, ("0xaa").toList, 3) = 1 := by
  exact c1_commit_idempotent.2.2.2 (("nft").toList) []
    [{ blockNumber := JSNum.int 100, blockTimestamp := some 17,
       txHash := ("0xaa").toList, logIndex := 3,
       fromLower := ("0xf1").toList, toLower := ("0xt1").toList,
       tokenId := 7, isBurned := false }]
    [{ blockNumber := JSNum.int 100, blockTimestamp := none,
       txHash := ("0xaa").toList, logIndex := 3,
       fromLower := ("0xf2").toList, toLower := ("0xt2").toList,
       tokenId := 9, isBurned := true }]
    { blockNumber := JSNum.int 100, blockTimestamp := some 17,
      txHash := ("0xaa").toList, logIndex := 3,
      fromLower := ("0xf1").toList, toLower := ("0xt1").toList,
      tokenId := 7, isBurned := false }
    { blockNumber := JSNum.int 100, blockTimestamp := none,
      txHash := ("0xaa").toList, logIndex := 3,
      fromLower := ("0xf2").toList, toLower := ("0xt2").toList,
      tokenId := 9, isBurned := true }
    (by simp) (by simp) rfl rfl (by rfl)

/-! ## Lemmas about the retry loop -/

/-- The retry-after hint of a call outcome (none for a successful call). -/
def errRetryAfter : CallOutcome → Option Nat
  | .ok _ => none
  | .err e => parseRetryAfterMs e

/-- Whether a call outcome is an error the loop classifies as retryable. -/
def retryableCall : CallOutcome → Bool
  | .ok _ => false
  | .err e => isRateLimitError e || (parseRetryAfterMs e).isSome

theorem backoff_step (a : Nat) :
    min (min (750 * 2 ^ a) 10000 * 2) 10000 = min (750 * 2 ^ (a + 1)) 10000 := by
  rcases Nat.le_total (750 * 2 ^ a) 10000 with h | h
  · rw [Nat.min_eq_left h, pow_succ, ← Nat.mul_assoc]
  · have h2 : (2 : Nat) ^ a ≤ 2 ^ (a + 1) :=
      Nat.pow_le_pow_right (by norm_num) (Nat.le_succ a)
    have h3 : 10000 ≤ 750 * 2 ^ (a + 1) := by
      calc 10000 ≤ 750 * 2 ^ a := h
        _ ≤ 750 * 2 ^ (a + 1) := Nat.mul_le_mul_left 750 h2
    rw [Nat.min_eq_right h, Nat.min_eq_right h3]
    omega

theorem retryLoop_allRetryable (calls : Nat → CallOutcome) (maxA : Nat)
    (hall : ∀ i, i < maxA → retryableCall (calls i) = true) :
    ∀ (fuel a : Nat), maxA ≤ a + fuel → a < maxA →
      retryLoop calls maxA fuel a (min (750 * 2 ^ a) 10000) =
        ⟨false, maxA,
          (List.range (maxA - 1 - a)).map
            (fun j => (errRetryAfter (calls (a + j))).getD
              (min (750 * 2 ^ (a + j)) 10000)),
          []⟩ := by
  intro fuel
  induction fuel with
  | zero => intro a h1 h2; omega
  | succ fuel ih =>
    intro a h1 h2
    have hr := hall a h2
    cases hc : calls a with
    | ok logs => rw [hc] at hr; simp [retryableCall] at hr
    | err e =>
      rw [hc] at hr
      simp only [retryableCall] at hr
      simp only [retryLoop, if_pos h2, hc]
      by_cases hlast : maxA ≤ a + 1
      · rw [if_pos (Or.inr hlast)]
        have hm : maxA = a + 1 := by omega
        have hz : maxA - 1 - a = 0 := by omega
        rw [hz, hm]
        rfl
      · rw [if_neg (by push_neg; exact ⟨by simp [hr], by omega⟩)]
        rw [backoff_step a, ih (a + 1) (by omega) (by omega)]
        have hm : maxA - 1 - a = (maxA - 1 - (a + 1)) + 1 := by omega
        rw [hm, List.range_succ_eq_map, List.map_cons, List.map_map]
        have hfun :
            ((fun j => (errRetryAfter (calls (a + j))).getD
                (min (750 * 2 ^ (a + j)) 10000)) ∘ Nat.succ) =
              (fun j => (errRetryAfter (calls (a + 1 + j))).getD
                (min (750 * 2 ^ (a + 1 + j)) 10000)) := by
          funext j
          simp only [Function.comp]
          rw [show a + (j + 1) = a + 1 + j by omega]
        rw [hfun]
        simp [hc, errRetryAfter]

/-- C6: facing only retryable errors, the fetcher makes exactly maxAttempts
attempts and then reports a window-level failure; before each retry it sleeps
the provider's retry-after hint when present, otherwise the computed backoff
that starts at 750 ms, doubles after each retryable failure, and is capped at
10000 ms. -/
theorem c6_backoff_termination (calls : Nat → CallOutcome) (maxAttempts : Nat)
    (hpos : 1 ≤ maxAttempts)
    (hall : ∀ i, i < maxAttempts → retryableCall (calls i) = true) :
    (getLogsWithRetry calls maxAttempts).ok = false ∧
    (getLogsWithRetry calls maxAttempts).attemptsMade = maxAttempts ∧
    (getLogsWithRetry calls maxAttempts).sleeps =
      (List.range (maxAttempts - 1)).map
        (fun i => (errRetryAfter (calls i)).getD (min (750 * 2 ^ i) 10000)) := by
  have h750 : (750 : Nat) = min (750 * 2 ^ 0) 10000 := by norm_num
  unfold getLogsWithRetry
  rw [h750, retryLoop_allRetryable calls maxAttempts hall maxAttempts 0
    (by omega) (by omega)]
  refine ⟨rfl, rfl, ?_⟩
  simp

/-- Witness for C6 at the source default maxAttempts = 6 with a provider that
always reports a rate limit: five sleeps 750, 1500, 3000, 6000, 10000 and a
failed trace after exactly 6 attempts. -/
theorem c6_backoff_termination_witness :
    (getLogsWithRetry (fun _ => CallOutcome.err ⟨("rate limit").toList⟩) 6).ok = false ∧
    (getLogsWithRetry (fun _ => CallOutcome.err ⟨("rate limit").toList⟩) 6).attemptsMade = 6 ∧
    (getLogsWithRetry (fun _ => CallOutcome.err ⟨("rate limit").toList⟩) 6).sleeps =
      [750, 1500, 3000, 6000, 10000] := by
  have h := c6_backoff_termination (fun _ => CallOutcome.err ⟨("rate limit").toList⟩) 6
    (by norm_num)
    (fun i _ => by
      show retryableCall (CallOutcome.err ⟨("rate limit").toList⟩) = true
      decide)
  refine ⟨h.1, h.2.1, ?_⟩
  rw [h.2.2]
  decide

/-- C7: an error that is not classified as retryable (no rate-limit marker or
text, no throttling code, no machine-readable retry-after hint) makes the
fetcher return failure right after the first provider call: one attempt, no
sleep. -/
theorem c7_nonretryable_fails_fast (calls : Nat → CallOutcome)
    (maxAttempts : Nat) (e : ScanError)
    (hpos : 1 ≤ maxAttempts)
    (hc : calls 0 = CallOutcome.err e)
    (hrl : isRateLimitError e = false)
    (hra : parseRetryAfterMs e = none) :
    getLogsWithRetry calls maxAttempts =
      ⟨false, 1, [], []⟩ := by
  obtain ⟨m, rfl⟩ : ∃ m, maxAttempts = m + 1 := ⟨maxAttempts - 1, by omega⟩
  unfold getLogsWithRetry
  simp only [retryLoop, if_pos (Nat.succ_pos m), hc, hra, hrl]
  rw [if_pos (Or.inl (by simp))]

/-- Witness for C7: an authentication failure message is not retryable and
fails after one attempt with no sleeping, already at the default
maxAttempts = 6. -/
theorem c7_nonretryable_fails_fast_witness :
    getLogsWithRetry (fun _ => CallOutcome.err ⟨("auth failure").toList⟩) 6 =
      ⟨false, 1, [], []⟩ := by
  exact c7_nonretryable_fails_fast _ 6 ⟨("auth failure").toList⟩
    (by norm_num) rfl (by decide) (by decide)

/-! ## Lemmas about the stable log index and decoder drops -/

/-- The non-negative-integer reading of a dynamic index field (the test
Number.isInteger(x) && x >= 0). -/
def idxNonNegInt : JSIndex → Option Int
  | .num (.int i) => if 0 ≤ i then some i else none
  | _ => none

theorem getStableLogIndex_fallback (lg : RawLog)
    (h : idxNonNegInt lg.index = none) :
    getStableLogIndex lg = stableFromLogIndex lg := by
  unfold getStableLogIndex
  cases hidx : lg.index with
  | num n =>
    cases n with
    | int i =>
      rw [hidx] at h
      simp only [idxNonNegInt] at h
      by_cases h0 : 0 ≤ i
      · rw [if_pos h0] at h
        exact absurd h (by simp)
      · show (if 0 ≤ i then some i else stableFromLogIndex lg) = stableFromLogIndex lg
        rw [if_neg h0]
    | nonint => rfl
  | str s => rfl
  | undef => rfl

theorem getStableLogIndex_nonneg (lg : RawLog) (n : Int)
    (h : getStableLogIndex lg = some n) : 0 ≤ n := by
  have hfb : ∀ m : Int, stableFromLogIndex lg = some m → 0 ≤ m := by
    intro m hm
    unfold stableFromLogIndex at hm
    split at hm
    · split at hm
      · injection hm with hm'
        omega
      · cases hm
    · cases hm
    · split at hm
      · split at hm
        · injection hm with hm'
          omega
        · cases hm
      · cases hm
    · cases hm
  unfold getStableLogIndex at h
  split at h
  · split at h
    · injection h with h'
      omega
    · exact hfb n h
  · exact hfb n h

theorem decodeTransferLog_drop_no_index (tsMap : List (Int × Int)) (lg : RawLog)
    (h : getStableLogIndex lg = none) : decodeTransferLog tsMap lg = none := by
  unfold decodeTransferLog
  cases lg.topics with
  | none => rfl
  | some tp =>
    by_cases hl : tp.length < 4
    · simp [hl]
    · simp [hl, h]

theorem length_filterMap_eq_countP {α β : Type} (f : α → Option β) :
    ∀ l : List α,
      (l.filterMap f).length = l.countP (fun a => (f a).isSome) := by
  intro l
  induction l with
  | nil => rfl
  | cons a r ih =>
    cases hf : f a <;>
      simp [List.filterMap_cons, hf, List.countP_cons, ih]

/-- C8: the stable log index is the provider index field when it is a
non-negative integer, else the logIndex field accepted as a non-negative
integer when numeric or parsed (hex when 0x-prefixed, decimal otherwise)
when a string, else null; a null index means the log is dropped, a log with
fewer than 4 topics is dropped, and malformed logs are dropped individually
so a batch decodes to exactly its well-formed logs. -/
theorem c8_stable_log_index :
    (∀ (lg : RawLog) (i : Int), lg.index = JSIndex.num (JSNum.int i) → 0 ≤ i →
      getStableLogIndex lg = some i) ∧
    (∀ (lg : RawLog) (i : Int), idxNonNegInt lg.index = none →
      lg.logIndex = JSIndex.num (JSNum.int i) → 0 ≤ i →
      getStableLogIndex lg = some i) ∧
    (∀ (lg : RawLog) (s : List Char), idxNonNegInt lg.index = none →
      lg.logIndex = JSIndex.str s →
      getStableLogIndex lg =
        (match parseIntJS (isHexPrefixed s) s with
         | some n => if 0 ≤ n then some n else none
         | none => none)) ∧
    (∀ lg : RawLog, idxNonNegInt lg.index = none →
      idxNonNegInt lg.logIndex = none → (∀ s, lg.logIndex ≠ JSIndex.str s) →
      getStableLogIndex lg = none) ∧
    (∀ (lg : RawLog) (n : Int), getStableLogIndex lg = some n → 0 ≤ n) ∧
    (∀ (tsMap : List (Int × Int)) (lg : RawLog), getStableLogIndex lg = none →
      decodeTransferLog tsMap lg = none) ∧
    (∀ (tsMap : List (Int × Int)) (lg : RawLog) (tp : List (List Char)),
      lg.topics = some tp → tp.length < 4 → decodeTransferLog tsMap lg = none) ∧
    (∀ (tsMap : List (Int × Int)) (logs : List RawLog),
      (decodeTransferLogs tsMap logs).length =
        logs.countP (fun lg => (decodeTransferLog tsMap lg).isSome)) := by
  refine ⟨?_, ?_, ?_, ?_, getStableLogIndex_nonneg,
    decodeTransferLog_drop_no_index, ?_, ?_⟩
  · intro lg i hidx hpos
    unfold getStableLogIndex
    rw [hidx]
    simp [hpos]
  · intro lg i hnone hli hpos
    rw [getStableLogIndex_fallback lg hnone]
    unfold stableFromLogIndex
    rw [hli]
    simp [hpos]
  · intro lg s hnone hli
    rw [getStableLogIndex_fallback lg hnone]
    unfold stableFromLogIndex
    rw [hli]
  · intro lg hnone hnone2 hnostr
    rw [getStableLogIndex_fallback lg hnone]
    unfold stableFromLogIndex
    cases hli : lg.logIndex with
    | num n =>
      cases n with
      | int i =>
        rw [hli] at hnone2
        simp only [idxNonNegInt] at hnone2
        by_cases h0 : 0 ≤ i
        · rw [if_pos h0] at hnone2
          exact absurd hnone2 (by simp)
        · show (if 0 ≤ i then some i else none) = (none : Option Int)
          rw [if_neg h0]
      | nonint => rfl
    | str s => exact absurd hli (hnostr s)
    | undef => rfl
  · intro tsMap lg tp htp hlen
    unfold decodeTransferLog
    rw [htp]
    simp [hlen]
  · intro tsMap logs
    exact length_filterMap_eq_countP (decodeTransferLog tsMap) logs

/-- A 32-byte topic string for the decoder scenario: "0x", zero padding, and
a hex tail. -/
def demoTopic (tail : List Char) : List Char :=
  '0' :: 'x' :: (List.replicate (64 - tail.length) '0' ++ tail)

/-- A raw log whose logIndex is the hex string "0x1a". -/
def demoHexLog : RawLog :=
  { index := JSIndex.undef
    logIndex := JSIndex.str (("0x1a").toList)
    topics := some [demoTopic (("dd").toList), demoTopic (("a1").toList),
      demoTopic (("b1").toList), demoTopic (("c1").toList)]
    transactionHash := some (("0x03").toList)
    blockNumber := JSNum.int 100 }

/-- A batch of 10 raw logs of which 2 are malformed: one has only 3 topics,
one has an unparseable string log index. -/
def demoBatch : List RawLog :=
  [{ index := JSIndex.num (JSNum.int 0), logIndex := JSIndex.undef
     topics := some [demoTopic (("dd").toList), demoTopic (("a1").toList),
       demoTopic (("b1").toList), demoTopic (("c1").toList)]
     transactionHash := some (("0x01").toList)
     blockNumber := JSNum.int 100 },
   { index := JSIndex.undef, logIndex := JSIndex.num (JSNum.int 1)
     topics := some [demoTopic (("dd").toList), demoTopic (("a2").toList),
       demoTopic (("b2").toList), demoTopic (("c2").toList)]
     transactionHash := some (("0x02").toList)
     blockNumber := JSNum.int 100 },
   demoHexLog,
   { index := JSIndex.undef, logIndex := JSIndex.str (("7").toList)
     topics := some [demoTopic (("dd").toList), demoTopic (("a4").toList),
       demoTopic (("b4").toList), demoTopic (("c4").toList)]
     transactionHash := some (("0x04").toList)
     blockNumber := JSNum.int 101 },
   { index := JSIndex.num (JSNum.int 4), logIndex := JSIndex.undef
     topics := some [demoTopic (("dd").toList), demoTopic (("a5").toList),
       demoTopic (("b5").toList),
       demoTopic (("000000000000000000000000000000000000dead").toList)]
     transactionHash := some (("0x05").toList)
     blockNumber := JSNum.int 101 },
   { index := JSIndex.num (JSNum.int 5), logIndex := JSIndex.undef
     topics := some [demoTopic (("dd").toList), demoTopic (("a6").toList),
       demoTopic (("b6").toList), demoTopic (("c6").toList)]
     transactionHash := some (("0x06").toList)
     blockNumber := JSNum.int 101 },
   { index := JSIndex.num (JSNum.int 6), logIndex := JSIndex.undef
     topics := some [demoTopic (("dd").toList), demoTopic (("a7").toList),
       demoTopic (("b7").toList), demoTopic (("c7").toList)]
     transactionHash := some (("0x07").toList)
     blockNumber := JSNum.int 102 },
   { index := JSIndex.num (JSNum.int 7), logIndex := JSIndex.undef
     topics := some [demoTopic (("dd").toList), demoTopic (("a8").toList),
       demoTopic (("b8").toList), demoTopic (("c8").toList)]
     transactionHash := some (("0x08").toList)
     blockNumber := JSNum.int 102 },
   { index := JSIndex.num (JSNum.int 8), logIndex := JSIndex.undef
     topics := some [demoTopic (("dd").toList), demoTopic (("a9").toList),
       demoTopic (("b9").toList)]
     transactionHash := some (("0x09").toList)
     blockNumber := JSNum.int 102 },
   { index := JSIndex.undef, logIndex := JSIndex.str (("zz").toList)
     topics := some [demoTopic (("dd").toList), demoTopic (("aa").toList),
       demoTopic (("ba").toList), demoTopic (("ca").toList)]
     transactionHash := some (("0x0a").toList)
     blockNumber := JSNum.int 103 }]

/-- Witness for C8: the hex string "0x1a" resolves to stable index 26, and
the batch of 10 logs with 2 malformed entries decodes to exactly 8 events. -/
theorem c8_stable_log_index_witness :
    getStableLogIndex demoHexLog = some 26 ∧
    demoBatch.length = 10 ∧
    (decodeTransferLogs [] demoBatch).length = 8 := by
  refine ⟨?_, by decide, ?_⟩
  · rw [c8_stable_log_index.2.2.1 demoHexLog (("0x1a").toList) rfl rfl]
    decide
  · rw [c8_stable_log_index.2.2.2.2.2.2.2 [] demoBatch]
    decide

/-! ## Lemmas about the timestamp resolver -/

theorem mem_uniqueBlocks_aux :
    ∀ (logs : List RawLog) (acc : List Int) (x : Int),
      (x ∈ logs.foldl
        (fun acc lg =>
          match lg.blockNumber with
          | .int bn => if acc.contains bn then acc else acc ++ [bn]
          | .nonint => acc)
        acc) ↔
        x ∈ acc ∨ ∃ lg ∈ logs, lg.blockNumber = JSNum.int x := by
  intro logs
  induction logs with
  | nil => intro acc x; simp
  | cons lg rest ih =>
    intro acc x
    rw [List.foldl_cons, ih]
    have hstep :
        (x ∈ (match lg.blockNumber with
          | JSNum.int bn => if acc.contains bn then acc else acc ++ [bn]
          | JSNum.nonint => acc)) ↔
          x ∈ acc ∨ lg.blockNumber = JSNum.int x := by
      cases hbn : lg.blockNumber with
      | int bn =>
        show (x ∈ if acc.contains bn = true then acc else acc ++ [bn]) ↔
          x ∈ acc ∨ JSNum.int bn = JSNum.int x
        by_cases hc : acc.contains bn
        · rw [if_pos hc]
          have hbm : bn ∈ acc := List.elem_iff.mp hc
          constructor
          · intro hx; exact Or.inl hx
          · rintro (hx | hx)
            · exact hx
            · injection hx with hx'; rw [← hx']; exact hbm
        · rw [if_neg hc]
          simp only [List.mem_append, List.mem_singleton]
          constructor
          · rintro (hx | hx)
            · exact Or.inl hx
            · exact Or.inr (by rw [hx])
          · rintro (hx | hx)
            · exact Or.inl hx
            · injection hx with hx'; exact Or.inr hx'.symm
      | nonint => simp
    rw [hstep]
    constructor
    · rintro (⟨hx | hx⟩ | ⟨lg', hm, he⟩)
      · exact Or.inl hx
      · exact Or.inr ⟨lg, List.mem_cons_self lg rest, hx⟩
      · exact Or.inr ⟨lg', List.mem_cons_of_mem lg hm, he⟩
    · rintro (hx | ⟨lg', hm, he⟩)
      · exact Or.inl (Or.inl hx)
      · rcases List.mem_cons.mp hm with rfl | hm'
        · exact Or.inl (Or.inr he)
        · exact Or.inr ⟨lg', hm', he⟩

theorem mem_uniqueBlocks (logs : List RawLog) (x : Int) :
    x ∈ uniqueBlocks logs ↔ ∃ lg ∈ logs, lg.blockNumber = JSNum.int x := by
  unfold uniqueBlocks
  rw [mem_uniqueBlocks_aux logs [] x]
  simp

theorem nodup_uniqueBlocks_aux :
    ∀ (logs : List RawLog) (acc : List Int), acc.Nodup →
      (logs.foldl
        (fun acc lg =>
          match lg.blockNumber with
          | .int bn => if acc.contains bn then acc else acc ++ [bn]
          | .nonint => acc)
        acc).Nodup := by
  intro logs
  induction logs with
  | nil => intro acc h; exact h
  | cons lg rest ih =>
    intro acc h
    rw [List.foldl_cons]
    apply ih
    cases hbn : lg.blockNumber with
    | int bn =>
      show (if acc.contains bn = true then acc else acc ++ [bn]).Nodup
      by_cases hc : acc.contains bn
      · rw [if_pos hc]; exact h
      · rw [if_neg hc]
        have hbm : bn ∉ acc := fun hm => hc (List.elem_iff.mpr hm)
        simp [List.nodup_append, h, hbm]
    | nonint => exact h

theorem nodup_uniqueBlocks (logs : List RawLog) : (uniqueBlocks logs).Nodup :=
  nodup_uniqueBlocks_aux logs [] List.nodup_nil

/-- The per-block entry produced by the resolver for one block number. -/
def blockTsEntry (getBlock : Int → Option SimpleBlock) (bn : Int) :
    Option (Int × Int) :=
  match getBlock bn with
  | some blk =>
    (match blk.timestamp with
     | JSNum.int t => some (bn, t)
     | JSNum.nonint => none)
  | none => none

theorem resolveBlockTimestamps_eq (getBlock : Int → Option SimpleBlock)
    (logs : List RawLog) :
    resolveBlockTimestamps getBlock logs =
      (uniqueBlocks logs).filterMap (blockTsEntry getBlock) := rfl

theorem blockTsEntry_eq_some (getBlock : Int → Option SimpleBlock) (bn : Int)
    (p : Int × Int) (h : blockTsEntry getBlock bn = some p) :
    p.1 = bn ∧ ∃ blk, getBlock bn = some blk ∧ blk.timestamp = JSNum.int p.2 := by
  unfold blockTsEntry at h
  split at h
  · next blk hgb =>
    split at h
    · next t hts =>
      injection h with h'
      rw [← h']
      exact ⟨rfl, blk, hgb, hts⟩
    · cases h
  · cases h

theorem mem_resolveBlockTimestamps (getBlock : Int → Option SimpleBlock)
    (logs : List RawLog) (bn t : Int)
    (h : (bn, t) ∈ resolveBlockTimestamps getBlock logs) :
    bn ∈ uniqueBlocks logs ∧
      ∃ blk, getBlock bn = some blk ∧ blk.timestamp = JSNum.int t := by
  rw [resolveBlockTimestamps_eq] at h
  obtain ⟨a, ha, hfa⟩ := List.mem_filterMap.mp h
  obtain ⟨h1, blk, hgb, hts⟩ := blockTsEntry_eq_some getBlock a (bn, t) hfa
  simp only at h1
  exact ⟨h1 ▸ ha, blk, h1 ▸ hgb, hts⟩

theorem nodup_map_fst_filterMap (f : Int → Option (Int × Int))
    (hf : ∀ a p, f a = some p → p.1 = a) :
    ∀ ubs : List Int, ubs.Nodup → ((ubs.filterMap f).map Prod.fst).Nodup := by
  intro ubs
  induction ubs with
  | nil => intro _; simp
  | cons a r ih =>
    intro hnd
    obtain ⟨hna, hndr⟩ := List.nodup_cons.mp hnd
    rw [List.filterMap_cons]
    cases hfa : f a with
    | none => exact ih hndr
    | some p =>
      rw [List.map_cons, List.nodup_cons]
      refine ⟨?_, ih hndr⟩
      intro hmem
      obtain ⟨q, hq, hq1⟩ := List.mem_map.mp hmem
      obtain ⟨b, hb, hfb⟩ := List.mem_filterMap.mp hq
      have hqb : q.1 = b := hf b q hfb
      have hpa : p.1 = a := hf a p hfa
      rw [hpa] at hq1
      rw [hq1] at hqb
      rw [← hqb] at hb
      exact hna hb

theorem lookup_eq_none_of_not_mem :
    ∀ (m : List (Int × Int)) (bn : Int), (∀ t, (bn, t) ∉ m) →
      List.lookup bn m = none := by
  intro m
  induction m with
  | nil => intro bn _; rfl
  | cons p rest ih =>
    intro bn h
    obtain ⟨a, b⟩ := p
    rw [List.lookup_cons]
    by_cases hab : bn = a
    · subst hab
      exact absurd (List.mem_cons_self (bn, b) rest) (h b)
    · have hbeq : (bn == a) = false := beq_false_of_ne hab
      rw [hbeq]
      exact ih bn fun t ht => h t (List.mem_cons_of_mem _ ht)

theorem decodeTransferLog_blockTimestamp (m : List (Int × Int)) (lg : RawLog)
    (ev : TransferEvent) (h : decodeTransferLog m lg = some ev) :
    ev.blockTimestamp = tsLookup m lg.blockNumber := by
  unfold decodeTransferLog at h
  split at h
  · cases h
  · split at h
    · cases h
    · split at h
      · cases h
      · split at h
        · cases h
        · injection h with h'
          rw [← h']

theorem decodeTransferLog_isSome_congr (m m' : List (Int × Int)) (lg : RawLog) :
    (decodeTransferLog m lg).isSome = (decodeTransferLog m' lg).isSome := by
  unfold decodeTransferLog
  split
  · rfl
  · split
    · rfl
    · split
      · rfl
      · split
        · rfl
        · rfl

/-- C9: the resolver looks up only the distinct block numbers referenced by
the batch; the resulting map has distinct keys, contains at most those
blocks, omits blocks whose lookup failed or returned no integer timestamp,
and a decoded event referencing an absent block is stored with a null
block_timestamp while still decoding. -/
theorem c9_timestamp_resolver (getBlock : Int → Option SimpleBlock)
    (logs : List RawLog) :
    (∀ bn t : Int, (bn, t) ∈ resolveBlockTimestamps getBlock logs →
      (∃ lg ∈ logs, lg.blockNumber = JSNum.int bn) ∧
      ∃ blk, getBlock bn = some blk ∧ blk.timestamp = JSNum.int t) ∧
    ((resolveBlockTimestamps getBlock logs).map Prod.fst).Nodup ∧
    (∀ bn : Int, getBlock bn = none →
      ∀ t, (bn, t) ∉ resolveBlockTimestamps getBlock logs) ∧
    (∀ (m m' : List (Int × Int)) (lg : RawLog),
      (decodeTransferLog m lg).isSome = (decodeTransferLog m' lg).isSome) ∧
    (∀ (lg : RawLog) (ev : TransferEvent),
      decodeTransferLog (resolveBlockTimestamps getBlock logs) lg = some ev →
      ∀ bn : Int, lg.blockNumber = JSNum.int bn → getBlock bn = none →
      ev.blockTimestamp = none) := by
  refine ⟨?_, ?_, ?_, decodeTransferLog_isSome_congr, ?_⟩
  · intro bn t h
    have := mem_resolveBlockTimestamps getBlock logs bn t h
    exact ⟨(mem_uniqueBlocks logs bn).mp this.1, this.2⟩
  · rw [resolveBlockTimestamps_eq]
    apply nodup_map_fst_filterMap
    · intro a p hp
      exact (blockTsEntry_eq_some getBlock a p hp).1
    · exact nodup_uniqueBlocks logs
  · intro bn hgb t hmem
    obtain ⟨_, blk, hblk, _⟩ := mem_resolveBlockTimestamps getBlock logs bn t hmem
    rw [hgb] at hblk
    cases hblk
  · intro lg ev h bn hbn hgb
    rw [decodeTransferLog_blockTimestamp _ lg ev h, hbn]
    show List.lookup bn (resolveBlockTimestamps getBlock logs) = none
    apply lookup_eq_none_of_not_mem
    intro t hmem
    obtain ⟨_, blk, hblk, _⟩ := mem_resolveBlockTimestamps getBlock logs bn t hmem
    rw [hgb] at hblk
    cases hblk

/-- A decodable raw log referencing block 103, for the C9 witness. -/
def demoLog103 : RawLog :=
  { index := JSIndex.num (JSNum.int 5)
    logIndex := JSIndex.undef
    topics := some [demoTopic (("dd").toList), demoTopic (("aa").toList),
      demoTopic (("ba").toList), demoTopic (("ca").toList)]
    transactionHash := some (("0x0a").toList)
    blockNumber := JSNum.int 103 }

/-- The event demoLog103 decodes to under a map missing block 103. -/
def demoEvent103 : TransferEvent :=
  { blockNumber := JSNum.int 103
    blockTimestamp := none
    txHash := ("0x0a").toList
    logIndex := 5
    fromLower := '0' :: 'x' :: (List.replicate 38 '0' ++ ("aa").toList)
    toLower := '0' :: 'x' :: (List.replicate 38 '0' ++ ("ba").toList)
    tokenId := 202
    isBurned := false }

/-- Witness for C9 at a provider that knows only block 100: block 103 is
absent from the map and the decoded event referencing it carries a null
timestamp. -/
theorem c9_timestamp_resolver_witness :
    ((103 : Int), (0 : Int)) ∉
      resolveBlockTimestamps
        (fun bn => if bn = 100 then some ⟨JSNum.int 1234⟩ else none) demoBatch ∧
    demoEvent103.blockTimestamp = none := by
  constructor
  · exact (c9_timestamp_resolver
      (fun bn => if bn = 100 then some ⟨JSNum.int 1234⟩ else none)
      demoBatch).2.2.1 103 (by decide) 0
  · exact (c9_timestamp_resolver
      (fun bn => if bn = 100 then some ⟨JSNum.int 1234⟩ else none)
      demoBatch).2.2.2.2 demoLog103 demoEvent103 (by decide) 103 rfl (by decide)

/-! ## Lemmas about the window loop and cursor advancement -/

/-- The table after committing the batches of windows i, i+1, ..., i+k-1,
skipping empty batches exactly as the loop does. -/
def commitSeq (key : List Char) (outcome : Nat → WindowFetch) :
    Nat → Nat → List TransferRow → List TransferRow
  | _, 0, tbl => tbl
  | i, k + 1, tbl =>
    commitSeq key outcome (i + 1) k
      (if (outcome i).events.isEmpty then tbl
       else commitBatch key tbl (outcome i).events)

theorem commitSeq_all_empty (key : List Char) (outcome : Nat → WindowFetch)
    (h : ∀ i, (outcome i).events = []) :
    ∀ (k i : Nat) (tbl : List TransferRow), commitSeq key outcome i k tbl = tbl := by
  intro k
  induction k with
  | zero => intro i tbl; rfl
  | succ k ih =>
    intro i tbl
    simp only [commitSeq, h i, List.isEmpty_nil, if_true]
    exact ih (i + 1) tbl

theorem getLastD_mem_of_ne_nil {α : Type} (l : List α) (d : α) (h : l ≠ []) :
    l.getLastD d ∈ l := by
  induction l with
  | nil => exact absurd rfl h
  | cons a r ih =>
    rw [List.getLastD_cons]
    cases r with
    | nil => simp
    | cons b r' => exact List.mem_cons_of_mem a (ih (by simp))

theorem windowLoop_allOk (key : List Char) (outcome : Nat → WindowFetch)
    (hok : ∀ i, outcome i ≠ WindowFetch.fail) :
    ∀ (ws : List (Int × Int)) (st : RunState),
      (windowLoop key outcome ws st).lastGood =
        (ws.map Prod.snd).getLastD st.lastGood ∧
      (windowLoop key outcome ws st).attempted = st.attempted + ws.length ∧
      (windowLoop key outcome ws st).txCount = st.txCount +
        (List.range ws.length).countP
          (fun j => !((outcome (st.attempted + j)).events.isEmpty)) ∧
      (windowLoop key outcome ws st).table =
        commitSeq key outcome st.attempted ws.length st.table := by
  intro ws
  induction ws with
  | nil =>
    intro st
    refine ⟨rfl, ?_, ?_, rfl⟩
    · simp [windowLoop]
    · simp [windowLoop]
  | cons w rest ih =>
    intro st
    cases hco : outcome st.attempted with
    | fail => exact absurd hco (hok st.attempted)
    | ok evs =>
      simp only [windowLoop, hco]
      obtain ⟨h1, h2, h3, h4⟩ := ih
        { lastGood := w.2
          table := if evs.isEmpty then st.table else commitBatch key st.table evs
          txCount := st.txCount + (if evs.isEmpty then 0 else 1)
          attempted := st.attempted + 1 }
      refine ⟨?_, ?_, ?_, ?_⟩
      · rw [h1, List.map_cons, List.getLastD_cons]
      · rw [h2, List.length_cons]
        show st.attempted + 1 + rest.length = st.attempted + (rest.length + 1)
        omega
      · rw [h3]
        show st.txCount + (if evs.isEmpty then 0 else 1) +
            (List.range rest.length).countP
              (fun j => !((outcome (st.attempted + 1 + j)).events.isEmpty)) =
          st.txCount + (List.range (w :: rest).length).countP
            (fun j => !((outcome (st.attempted + j)).events.isEmpty))
        rw [List.length_cons, List.range_succ_eq_map, List.countP_cons,
          List.countP_map]
        have hfun :
            ((fun j => !((outcome (st.attempted + j)).events.isEmpty)) ∘ Nat.succ) =
              (fun j => !((outcome (st.attempted + 1 + j)).events.isEmpty)) := by
          funext j
          simp only [Function.comp]
          rw [show st.attempted + (j + 1) = st.attempted + 1 + j by omega]
        rw [hfun]
        simp only [Nat.add_zero, hco, WindowFetch.events]
        cases hemp : evs.isEmpty
        · simp [hemp]
          omega
        · simp [hemp]
      · rw [h4]
        show commitSeq key outcome (st.attempted + 1) rest.length
            (if evs.isEmpty then st.table else commitBatch key st.table evs) =
          commitSeq key outcome st.attempted ((w :: rest).length) st.table
        rw [List.length_cons]
        simp only [commitSeq, hco, WindowFetch.events]

theorem windowLoop_firstFail (key : List Char) (outcome : Nat → WindowFetch) :
    ∀ (k : Nat) (ws : List (Int × Int)) (st : RunState),
      (∀ i, i < k → outcome (st.attempted + i) ≠ WindowFetch.fail) →
      outcome (st.attempted + k) = WindowFetch.fail →
      k < ws.length →
      (windowLoop key outcome ws st).attempted = st.attempted + k + 1 ∧
      (windowLoop key outcome ws st).lastGood =
        ((ws.take k).map Prod.snd).getLastD st.lastGood ∧
      (windowLoop key outcome ws st).table =
        commitSeq key outcome st.attempted k st.table := by
  intro k
  induction k with
  | zero =>
    intro ws st _ hfail hlen
    cases ws with
    | nil => simp at hlen
    | cons w rest =>
      rw [Nat.add_zero] at hfail
      simp only [windowLoop, hfail]
      refine ⟨?_, ?_, ?_⟩
      · simp
      · simp
      · simp [commitSeq]
  | succ k ih =>
    intro ws st hok hfail hlen
    cases ws with
    | nil => simp at hlen
    | cons w rest =>
      have h0 : outcome st.attempted ≠ WindowFetch.fail := by
        have := hok 0 (Nat.succ_pos k)
        simpa using this
      cases hco : outcome st.attempted with
      | fail => exact absurd hco h0
      | ok evs =>
        simp only [windowLoop, hco]
        obtain ⟨ha, hl, ht⟩ := ih rest
          { lastGood := w.2
            table := if evs.isEmpty then st.table else commitBatch key st.table evs
            txCount := st.txCount + (if evs.isEmpty then 0 else 1)
            attempted := st.attempted + 1 }
          (fun i hi => by
            show outcome (st.attempted + 1 + i) ≠ WindowFetch.fail
            rw [show st.attempted + 1 + i = st.attempted + (i + 1) by omega]
            exact hok (i + 1) (by omega))
          (by
            show outcome (st.attempted + 1 + k) = WindowFetch.fail
            rw [show st.attempted + 1 + k = st.attempted + (k + 1) by omega]
            exact hfail)
          (by simpa using hlen)
        refine ⟨?_, ?_, ?_⟩
        · rw [ha]
          show st.attempted + 1 + k + 1 = st.attempted + (k + 1) + 1
          omega
        · rw [hl, List.take_succ_cons, List.map_cons, List.getLastD_cons]
        · rw [ht]
          show commitSeq key outcome (st.attempted + 1) k
              (if evs.isEmpty then st.table else commitBatch key st.table evs) =
            commitSeq key outcome st.attempted (k + 1) st.table
          simp only [commitSeq, hco, WindowFetch.events]

theorem scanRun_skip (key : List Char)
    (startBlock lastScanned overlap latestBlock : Int) (scanBlocks : Nat)
    (outcome : Nat → WindowFetch) (tbl0 : List TransferRow)
    (h : latestBlock < effectiveStart startBlock lastScanned overlap) :
    scanRun key startBlock lastScanned overlap latestBlock scanBlocks outcome
      tbl0 = ⟨lastScanned, false, tbl0, 0, 0⟩ := by
  simp only [scanRun, if_pos h]

theorem scanRun_updated (key : List Char)
    (startBlock lastScanned overlap latestBlock : Int) (scanBlocks : Nat)
    (outcome : Nat → WindowFetch) (tbl0 : List TransferRow)
    (h1 : ¬ latestBlock < effectiveStart startBlock lastScanned overlap)
    (h2 : effectiveStart startBlock lastScanned overlap ≤
      (windowLoop key outcome
        (windows (effectiveStart startBlock lastScanned overlap) latestBlock
          scanBlocks)
        ⟨effectiveStart startBlock lastScanned overlap - 1, tbl0, 0, 0⟩).lastGood) :
    scanRun key startBlock lastScanned overlap latestBlock scanBlocks outcome
      tbl0 =
      ⟨(windowLoop key outcome
          (windows (effectiveStart startBlock lastScanned overlap) latestBlock
            scanBlocks)
          ⟨effectiveStart startBlock lastScanned overlap - 1, tbl0, 0, 0⟩).lastGood,
        true,
        (windowLoop key outcome
          (windows (effectiveStart startBlock lastScanned overlap) latestBlock
            scanBlocks)
          ⟨effectiveStart startBlock lastScanned overlap - 1, tbl0, 0, 0⟩).table,
        (windowLoop key outcome
          (windows (effectiveStart startBlock lastScanned overlap) latestBlock
            scanBlocks)
          ⟨effectiveStart startBlock lastScanned overlap - 1, tbl0, 0, 0⟩).txCount,
        (windowLoop key outcome
          (windows (effectiveStart startBlock lastScanned overlap) latestBlock
            scanBlocks)
          ⟨effectiveStart startBlock lastScanned overlap - 1, tbl0, 0, 0⟩).attempted⟩ := by
  simp only [scanRun, if_neg h1, if_pos h2]

theorem scanRun_not_updated (key : List Char)
    (startBlock lastScanned overlap latestBlock : Int) (scanBlocks : Nat)
    (outcome : Nat → WindowFetch) (tbl0 : List TransferRow)
    (h1 : ¬ latestBlock < effectiveStart startBlock lastScanned overlap)
    (h2 : ¬ effectiveStart startBlock lastScanned overlap ≤
      (windowLoop key outcome
        (windows (effectiveStart startBlock lastScanned overlap) latestBlock
          scanBlocks)
        ⟨effectiveStart startBlock lastScanned overlap - 1, tbl0, 0, 0⟩).lastGood) :
    scanRun key startBlock lastScanned overlap latestBlock scanBlocks outcome
      tbl0 =
      ⟨lastScanned, false,
        (windowLoop key outcome
          (windows (effectiveStart startBlock lastScanned overlap) latestBlock
            scanBlocks)
          ⟨effectiveStart startBlock lastScanned overlap - 1, tbl0, 0, 0⟩).table,
        (windowLoop key outcome
          (windows (effectiveStart startBlock lastScanned overlap) latestBlock
            scanBlocks)
          ⟨effectiveStart startBlock lastScanned overlap - 1, tbl0, 0, 0⟩).txCount,
        (windowLoop key outcome
          (windows (effectiveStart startBlock lastScanned overlap) latestBlock
            scanBlocks)
          ⟨effectiveStart startBlock lastScanned overlap - 1, tbl0, 0, 0⟩).attempted⟩ := by
  simp only [scanRun, if_neg h1, if_neg h2]

/-- C5: when window k's log fetch is the first to exhaust its retries, the
failure is confined to that window: the loop stops right there (k + 1
windows attempted), the table holds exactly the commits of the k earlier
windows, and the cursor ends at the to_block of the last fully committed
window before the failure — or is left untouched when the very first window
failed. -/
theorem c5_failure_confinement (key : List Char)
    (startBlock lastScanned overlap latestBlock : Int) (scanBlocks : Nat)
    (outcome : Nat → WindowFetch) (tbl0 : List TransferRow) (k : Nat)
    (hf : effectiveStart startBlock lastScanned overlap ≤ latestBlock)
    (hk : k < (windows (effectiveStart startBlock lastScanned overlap)
      latestBlock scanBlocks).length)
    (hok : ∀ i, i < k → outcome i ≠ WindowFetch.fail)
    (hfail : outcome k = WindowFetch.fail) :
    (scanRun key startBlock lastScanned overlap latestBlock scanBlocks
      outcome tbl0).attempted = k + 1 ∧
    (scanRun key startBlock lastScanned overlap latestBlock scanBlocks
      outcome tbl0).table = commitSeq key outcome 0 k tbl0 ∧
    (0 < k →
      (scanRun key startBlock lastScanned overlap latestBlock scanBlocks
        outcome tbl0).cursorUpdated = true ∧
      (scanRun key startBlock lastScanned overlap latestBlock scanBlocks
        outcome tbl0).cursor =
        (((windows (effectiveStart startBlock lastScanned overlap) latestBlock
          scanBlocks).take k).map Prod.snd).getLastD
          (effectiveStart startBlock lastScanned overlap - 1)) ∧
    (k = 0 →
      (scanRun key startBlock lastScanned overlap latestBlock scanBlocks
        outcome tbl0).cursorUpdated = false ∧
      (scanRun key startBlock lastScanned overlap latestBlock scanBlocks
        outcome tbl0).cursor = lastScanned ∧
      (scanRun key startBlock lastScanned overlap latestBlock scanBlocks
        outcome tbl0).table = tbl0) := by
  have hnotlt : ¬ latestBlock < effectiveStart startBlock lastScanned overlap := by
    omega
  obtain ⟨ha, hl, ht⟩ := windowLoop_firstFail key outcome k
    (windows (effectiveStart startBlock lastScanned overlap) latestBlock
      scanBlocks)
    ⟨effectiveStart startBlock lastScanned overlap - 1, tbl0, 0, 0⟩
    (fun i hi => by
      show outcome (0 + i) ≠ WindowFetch.fail
      rw [Nat.zero_add]
      exact hok i hi)
    (by
      show outcome (0 + k) = WindowFetch.fail
      rw [Nat.zero_add]
      exact hfail)
    hk
  dsimp only at ha hl ht
  simp only [Nat.zero_add] at ha
  by_cases hkpos : 0 < k
  · have hne : (((windows (effectiveStart startBlock lastScanned overlap)
        latestBlock scanBlocks).take k).map Prod.snd) ≠ [] := by
      intro hnil
      have := congrArg List.length hnil
      simp only [List.length_map, List.length_take, List.length_nil] at this
      omega
    have hmem := getLastD_mem_of_ne_nil _
      (effectiveStart startBlock lastScanned overlap - 1) hne
    obtain ⟨w, hw, hweq⟩ := List.mem_map.mp hmem
    have hwin : w ∈ windows (effectiveStart startBlock lastScanned overlap)
        latestBlock scanBlocks := List.mem_of_mem_take hw
    have hb := tiles_bounds _ _ _ (tiles_windows scanBlocks _ _ hf) w hwin
    have hge : effectiveStart startBlock lastScanned overlap ≤
        (windowLoop key outcome
          (windows (effectiveStart startBlock lastScanned overlap) latestBlock
            scanBlocks)
          ⟨effectiveStart startBlock lastScanned overlap - 1, tbl0, 0, 0⟩).lastGood := by
      rw [hl, ← hweq]
      omega
    rw [scanRun_updated key startBlock lastScanned overlap latestBlock
      scanBlocks outcome tbl0 hnotlt hge]
    exact ⟨ha, ht, fun _ => ⟨rfl, hl⟩, fun h0 => absurd h0 (by omega)⟩
  · have hk0 : k = 0 := by omega
    subst hk0
    have hlast : (windowLoop key outcome
        (windows (effectiveStart startBlock lastScanned overlap) latestBlock
          scanBlocks)
        ⟨effectiveStart startBlock lastScanned overlap - 1, tbl0, 0, 0⟩).lastGood =
        effectiveStart startBlock lastScanned overlap - 1 := by
      rw [hl]
      simp
    have hnotle : ¬ effectiveStart startBlock lastScanned overlap ≤
        (windowLoop key outcome
          (windows (effectiveStart startBlock lastScanned overlap) latestBlock
            scanBlocks)
          ⟨effectiveStart startBlock lastScanned overlap - 1, tbl0, 0, 0⟩).lastGood := by
      rw [hlast]
      omega
    rw [scanRun_not_updated key startBlock lastScanned overlap latestBlock
      scanBlocks outcome tbl0 hnotlt hnotle]
    exact ⟨ha, ht, fun h0 => absurd h0 (by omega), fun _ => ⟨rfl, rfl, ht⟩⟩

/-- Witness for C5: effective start 995, head 2000, window size 499 gives
three windows; windows 0 and 1 succeed with empty batches and window 2's
fetch fails, so 3 windows were attempted, the table is untouched and the
cursor ends at 1994, the to_block of the last committed window. -/
theorem c5_failure_confinement_witness :
    (scanRun [] 0 1000 5 2000 499
      (fun i => if i < 2 then WindowFetch.ok [] else WindowFetch.fail)
      []).attempted = 3 ∧
    (scanRun [] 0 1000 5 2000 499
      (fun i => if i < 2 then WindowFetch.ok [] else WindowFetch.fail)
      []).cursorUpdated = true ∧
    (scanRun [] 0 1000 5 2000 499
      (fun i => if i < 2 then WindowFetch.ok [] else WindowFetch.fail)
      []).cursor = 1994 := by
  have hes : effectiveStart 0 1000 5 = 995 := by
    unfold effectiveStart
    rw [if_pos (by norm_num)]
    decide
  have hws : windows (effectiveStart 0 1000 5) 2000 499 =
      [(995, 1494), (1495, 1994), (1995, 2000)] := by
    rw [hes, windows_cons _ _ _ (by norm_num), windows_cons _ _ _ (by norm_num),
      windows_cons _ _ _ (by norm_num), windows_nil _ _ _ (by norm_num)]
    norm_num
  have h := c5_failure_confinement [] 0 1000 5 2000 499
    (fun i => if i < 2 then WindowFetch.ok [] else WindowFetch.fail) [] 2
    (by rw [hes]; norm_num) (by rw [hws]; norm_num)
    (fun i hi => by
      show (if i < 2 then WindowFetch.ok ([] : List TransferEvent)
        else WindowFetch.fail) ≠ WindowFetch.fail
      rw [if_pos hi]
      exact fun hcon => WindowFetch.noConfusion hcon)
    (by simp)
  refine ⟨h.1, (h.2.2.1 (by norm_num)).1, ?_⟩
  rw [(h.2.2.1 (by norm_num)).2, hws, hes]
  decide

/-- C4 counterexample: against a head block (997) smaller than the stored
cursor (1000), a fully successful run still updates the cursor and writes
back 997 < 1000, so the stored value regresses. -/
theorem c4_cursor_monotone_cex :
    (scanRun [] 0 1000 5 997 10 (fun _ => WindowFetch.ok []) []).cursorUpdated
      = true ∧
    (scanRun [] 0 1000 5 997 10 (fun _ => WindowFetch.ok []) []).cursor = 997 ∧
    (997 : Int) < 1000 := by
  have hes : effectiveStart 0 1000 5 = 995 := by
    unfold effectiveStart
    rw [if_pos (by norm_num)]
    decide
  have hws : windows (effectiveStart 0 1000 5) 997 10 = [(995, 997)] := by
    rw [hes, windows_cons _ _ _ (by norm_num), windows_nil _ _ _ (by norm_num)]
    norm_num
  have hlg : (windowLoop [] (fun _ => WindowFetch.ok [])
      (windows (effectiveStart 0 1000 5) 997 10)
      ⟨effectiveStart 0 1000 5 - 1, [], 0, 0⟩).lastGood = 997 := by
    rw [hws]
    rfl
  have hge : effectiveStart 0 1000 5 ≤
      (windowLoop [] (fun _ => WindowFetch.ok [])
        (windows (effectiveStart 0 1000 5) 997 10)
        ⟨effectiveStart 0 1000 5 - 1, [], 0, 0⟩).lastGood := by
    rw [hlg, hes]
    norm_num
  rw [scanRun_updated [] 0 1000 5 997 10 (fun _ => WindowFetch.ok []) []
    (by rw [hes]; norm_num) hge]
  exact ⟨rfl, hlg, by norm_num⟩

/-- C4 as amended: provided the head block observed by a run is at least the
cursor value read at its start (heads never regress below the cursor), a
fully successful run writes back a cursor value no smaller than the one it
read, so the stored last_scanned_block never decreases across successful
runs. -/
theorem c4_cursor_monotone (key : List Char)
    (startBlock lastScanned overlap latestBlock : Int) (scanBlocks : Nat)
    (outcome : Nat → WindowFetch) (tbl0 : List TransferRow)
    (hok : ∀ i, outcome i ≠ WindowFetch.fail)
    (hhead : lastScanned ≤ latestBlock) :
    lastScanned ≤ (scanRun key startBlock lastScanned overlap latestBlock
      scanBlocks outcome tbl0).cursor := by
  by_cases hskip : latestBlock < effectiveStart startBlock lastScanned overlap
  · rw [scanRun_skip key startBlock lastScanned overlap latestBlock scanBlocks
      outcome tbl0 hskip]
  · push_neg at hskip
    have hlg : (windowLoop key outcome
        (windows (effectiveStart startBlock lastScanned overlap) latestBlock
          scanBlocks)
        ⟨effectiveStart startBlock lastScanned overlap - 1, tbl0, 0, 0⟩).lastGood =
        latestBlock := by
      rw [(windowLoop_allOk key outcome hok
        (windows (effectiveStart startBlock lastScanned overlap) latestBlock
          scanBlocks)
        ⟨effectiveStart startBlock lastScanned overlap - 1, tbl0, 0, 0⟩).1]
      exact tiles_map_snd_getLastD _ _ _ _
        (tiles_windows scanBlocks _ _ hskip) (windows_ne_nil _ _ _ hskip)
    have hge : effectiveStart startBlock lastScanned overlap ≤
        (windowLoop key outcome
          (windows (effectiveStart startBlock lastScanned overlap) latestBlock
            scanBlocks)
          ⟨effectiveStart startBlock lastScanned overlap - 1, tbl0, 0, 0⟩).lastGood := by
      rw [hlg]
      omega
    rw [scanRun_updated key startBlock lastScanned overlap latestBlock
      scanBlocks outcome tbl0 (by omega) hge]
    show lastScanned ≤ (windowLoop key outcome
      (windows (effectiveStart startBlock lastScanned overlap) latestBlock
        scanBlocks)
      ⟨effectiveStart startBlock lastScanned overlap - 1, tbl0, 0, 0⟩).lastGood
    rw [hlg]
    exact hhead

/-- Witness for the amended C4: a successful run from cursor 1000 against
head 2000 writes back a cursor value of at least 1000. -/
theorem c4_cursor_monotone_witness :
    (1000 : Int) ≤ (scanRun [] 0 1000 5 2000 10
      (fun _ => WindowFetch.ok []) []).cursor :=
  c4_cursor_monotone [] 0 1000 5 2000 10 (fun _ => WindowFetch.ok []) []
    (fun _ hcon => WindowFetch.noConfusion hcon) (by norm_num)

/-- C10: when every window fetch succeeds, the cursor is updated past every
window to the head block even when batches are empty, a window executes a
database transaction only when its batch is non-empty (and an all-empty run
executes none and leaves the table untouched); when the very first fetch
fails, the cursor update is skipped and the cursor row keeps its old
value. -/
theorem c10_empty_windows_advance (key : List Char)
    (startBlock lastScanned overlap latestBlock : Int) (scanBlocks : Nat)
    (outcome : Nat → WindowFetch) (tbl0 : List TransferRow)
    (hf : effectiveStart startBlock lastScanned overlap ≤ latestBlock) :
    ((∀ i, outcome i ≠ WindowFetch.fail) →
      (scanRun key startBlock lastScanned overlap latestBlock scanBlocks
        outcome tbl0).cursorUpdated = true ∧
      (scanRun key startBlock lastScanned overlap latestBlock scanBlocks
        outcome tbl0).cursor = latestBlock ∧
      (scanRun key startBlock lastScanned overlap latestBlock scanBlocks
        outcome tbl0).txCount =
        (List.range (windows (effectiveStart startBlock lastScanned overlap)
          latestBlock scanBlocks).length).countP
          (fun j => !((outcome j).events.isEmpty)) ∧
      ((∀ i, (outcome i).events = []) →
        (scanRun key startBlock lastScanned overlap latestBlock scanBlocks
          outcome tbl0).table = tbl0 ∧
        (scanRun key startBlock lastScanned overlap latestBlock scanBlocks
          outcome tbl0).txCount = 0)) ∧
    (outcome 0 = WindowFetch.fail →
      (scanRun key startBlock lastScanned overlap latestBlock scanBlocks
        outcome tbl0).cursorUpdated = false ∧
      (scanRun key startBlock lastScanned overlap latestBlock scanBlocks
        outcome tbl0).cursor = lastScanned ∧
      (scanRun key startBlock lastScanned overlap latestBlock scanBlocks
        outcome tbl0).table = tbl0 ∧
      (scanRun key startBlock lastScanned overlap latestBlock scanBlocks
        outcome tbl0).attempted = 1) := by
  have hnotlt : ¬ latestBlock < effectiveStart startBlock lastScanned overlap := by
    omega
  constructor
  · intro hok
    obtain ⟨h1, h2, h3, h4⟩ := windowLoop_allOk key outcome hok
      (windows (effectiveStart startBlock lastScanned overlap) latestBlock
        scanBlocks)
      ⟨effectiveStart startBlock lastScanned overlap - 1, tbl0, 0, 0⟩
    have hlg : (windowLoop key outcome
        (windows (effectiveStart startBlock lastScanned overlap) latestBlock
          scanBlocks)
        ⟨effectiveStart startBlock lastScanned overlap - 1, tbl0, 0, 0⟩).lastGood =
        latestBlock := by
      rw [h1]
      exact tiles_map_snd_getLastD _ _ _ _
        (tiles_windows scanBlocks _ _ hf) (windows_ne_nil _ _ _ hf)
    have hge : effectiveStart startBlock lastScanned overlap ≤
        (windowLoop key outcome
          (windows (effectiveStart startBlock lastScanned overlap) latestBlock
            scanBlocks)
          ⟨effectiveStart startBlock lastScanned overlap - 1, tbl0, 0, 0⟩).lastGood := by
      rw [hlg]
      omega
    rw [scanRun_updated key startBlock lastScanned overlap latestBlock
      scanBlocks outcome tbl0 hnotlt hge]
    have htx : (windowLoop key outcome
        (windows (effectiveStart startBlock lastScanned overlap) latestBlock
          scanBlocks)
        ⟨effectiveStart startBlock lastScanned overlap - 1, tbl0, 0, 0⟩).txCount =
        (List.range (windows (effectiveStart startBlock lastScanned overlap)
          latestBlock scanBlocks).length).countP
          (fun j => !((outcome j).events.isEmpty)) := by
      rw [h3]
      show 0 + (List.range (windows (effectiveStart startBlock lastScanned
        overlap) latestBlock scanBlocks).length).countP
          (fun j => !((outcome (0 + j)).events.isEmpty)) = _
      rw [Nat.zero_add]
      congr 1
      funext j
      rw [Nat.zero_add]
    refine ⟨rfl, hlg, htx, fun hempty => ⟨?_, ?_⟩⟩
    · show (windowLoop key outcome
        (windows (effectiveStart startBlock lastScanned overlap) latestBlock
          scanBlocks)
        ⟨effectiveStart startBlock lastScanned overlap - 1, tbl0, 0, 0⟩).table = tbl0
      rw [h4]
      exact commitSeq_all_empty key outcome hempty _ _ tbl0
    · show (windowLoop key outcome
        (windows (effectiveStart startBlock lastScanned overlap) latestBlock
          scanBlocks)
        ⟨effectiveStart startBlock lastScanned overlap - 1, tbl0, 0, 0⟩).txCount = 0
      rw [htx]
      apply List.countP_eq_zero.mpr
      intro j _
      simp [hempty j]
  · intro hfail
    have hk0 : 0 < (windows (effectiveStart startBlock lastScanned overlap)
        latestBlock scanBlocks).length :=
      List.length_pos.mpr (windows_ne_nil _ _ _ hf)
    obtain ⟨ha, hl, ht⟩ := windowLoop_firstFail key outcome 0
      (windows (effectiveStart startBlock lastScanned overlap) latestBlock
        scanBlocks)
      ⟨effectiveStart startBlock lastScanned overlap - 1, tbl0, 0, 0⟩
      (fun i hi => absurd hi (by omega))
      (by
        show outcome (0 + 0) = WindowFetch.fail
        rw [Nat.zero_add]
        exact hfail)
      hk0
    have hlast : (windowLoop key outcome
        (windows (effectiveStart startBlock lastScanned overlap) latestBlock
          scanBlocks)
        ⟨effectiveStart startBlock lastScanned overlap - 1, tbl0, 0, 0⟩).lastGood =
        effectiveStart startBlock lastScanned overlap - 1 := by
      rw [hl]
      simp
    have hnotle : ¬ effectiveStart startBlock lastScanned overlap ≤
        (windowLoop key outcome
          (windows (effectiveStart startBlock lastScanned overlap) latestBlock
            scanBlocks)
          ⟨effectiveStart startBlock lastScanned overlap - 1, tbl0, 0, 0⟩).lastGood := by
      rw [hlast]
      omega
    rw [scanRun_not_updated key startBlock lastScanned overlap latestBlock
      scanBlocks outcome tbl0 hnotlt hnotle]
    exact ⟨rfl, rfl, ht, ha⟩

/-- Witness for C10: with head 997 and effective start 995 there is one
window [995, 997]; a successful empty fetch advances the cursor to 997 with
zero transactions, a failed first fetch leaves the cursor at 1000. -/
theorem c10_empty_windows_advance_witness :
    (scanRun [] 0 1000 5 997 10 (fun _ => WindowFetch.ok []) []).cursor = 997 ∧
    (scanRun [] 0 1000 5 997 10 (fun _ => WindowFetch.ok []) []).txCount = 0 ∧
    (scanRun [] 0 1000 5 997 10 (fun _ => WindowFetch.fail) []).cursorUpdated
      = false ∧
    (scanRun [] 0 1000 5 997 10 (fun _ => WindowFetch.fail) []).cursor = 1000 := by
  have hes : effectiveStart 0 1000 5 = 995 := by
    unfold effectiveStart
    rw [if_pos (by norm_num)]
    decide
  have ha := c10_empty_windows_advance [] 0 1000 5 997 10
    (fun _ => WindowFetch.ok []) [] (by rw [hes]; norm_num)
  have hb := c10_empty_windows_advance [] 0 1000 5 997 10
    (fun _ => WindowFetch.fail) [] (by rw [hes]; norm_num)
  obtain ⟨_, hcur, _, hemp⟩ := ha.1 (fun _ hcon => WindowFetch.noConfusion hcon)
  obtain ⟨hupd, hcur2, _, _⟩ := hb.2 rfl
  exact ⟨hcur, (hemp (fun i => rfl)).2, hupd, hcur2⟩

end Datum
